import Mathlib

/-!
Verification of the MySQL catalog translator in `dialect/sql/schema/atlas.go`:
the translation of ent's abstract `Table`/`Column`/`Index`/`ForeignKey`
descriptors into atlas-native table descriptors (`aTables`, `aColumns`,
`aIndexes`, `atTable`, `atTypeC`, `atUniqueC`, `atImplicitIndexName`,
`atIndex`, `atIncrementC`, `atIncrementT`).

Go strings are Lean `String`s, `int64` is `Int`, pointers to peer objects are
replaced by the peer's name (the source only ever reads `.Name` through such
pointers, and column lookups are by name), `error` results are `Except AErr`,
and `fmt.Errorf` calls are embedded as structured `AErr` constructors carrying
exactly the values interpolated by the format string.
-/

/-- Abstract field types (`schema/field` type codes), as matched by the
`switch c1.ftype` in `atTypeC` (atlas.go lines 184-261).  `other` stands for
every type code that reaches the `default:` branch. -/
inductive FieldType where
  | bool | int8 | uint8 | int16 | uint16 | int32 | uint32
  | int | int64 | uint | uint64
  | bytes | json | string | float32 | float64 | time | enum | uuid
  | other
deriving DecidableEq, Repr

/-- A Go `interface{}` default value, as consumed by `fmt.Sprint` and the
`Default.(string)` type assertion in `aColumns` (lines 95-102): either a Go
string, or any other value together with its `fmt.Sprint` rendering. -/
inductive GoValue where
  | str (s : String)
  | raw (printed : String)
deriving DecidableEq, Repr

/-- `fmt.Sprint` of a `GoValue`: a string prints as itself. -/
def goSprint : GoValue → String
  | .str s => s
  | .raw p => p

/-- Structured rendering of the `fmt.Errorf` calls and external error values in
atlas.go.  Each constructor records the values interpolated into the format
string of the corresponding call site. -/
inductive AErr where
  /-- line 57: `"unexpected fk %q column: %q"` -/
  | fkColumn (sym col : String)
  /-- line 69: `"unexpected fk %q ref-table: %q"` -/
  | fkRefTable (sym table : String)
  /-- line 75: `"unexpected fk %q ref-column: %q"` -/
  | fkRefColumn (sym col : String)
  /-- line 121: `"unexpected primary-key column: %q"` -/
  | pkColumn (col : String)
  /-- line 303: `"unexpected index %q column: %q"` -/
  | indexColumn (idx col : String)
  /-- an error returned by `mysql.ParseType` -/
  | typeParse (s : String)
  /-- a database error (e.g. from `pkRange`) -/
  | db (msg : String)
deriving DecidableEq, Repr

/-- ent-side abstract column (`dialect/sql/schema.Column`), with the fields
read by atlas.go.  `SchemaTypeMySQL` is the `c1.SchemaType[dialect.MySQL]`
entry, `""` when the map is nil or has no MySQL key.  `supportDefaultB` records
the result of `c1.supportDefault()` and `scantyp` the recorded scan type used
by `c1.scanTypeOr` (both methods live outside the provided sources). -/
structure Column where
  Name : String
  /-- the source's `Type` field (`Type` is a Lean keyword) -/
  ftype : FieldType
  Size : Int := 0
  Nullable : Bool := false
  Unique : Bool := false
  Increment : Bool := false
  Default : Option GoValue := none
  supportDefaultB : Bool := false
  SchemaTypeMySQL : String := ""
  Collation : String := ""
  Attr : String := ""
  Enums : List String := []
  typ : String := ""
  scantyp : String := ""
deriving DecidableEq, Repr

/-- ent-side index.  `prefixes` records the per-column prefix lengths that
`indexParts(idx1)` (defined outside the provided sources) extracts from the
index annotation. -/
structure Index where
  Name : String
  Unique : Bool := false
  Columns : List Column := []
  prefixes : List (String × Int) := []
deriving DecidableEq, Repr

/-- ent-side foreign key.  The source reads `fk1.RefTable` only through
`.Name` (line 63), so the reference-table pointer is embedded as the name
`RefTableName`. -/
structure ForeignKey where
  Symbol : String
  Columns : List Column := []
  RefTableName : String
  RefColumns : List Column := []
  OnUpdate : String := ""
  OnDelete : String := ""
deriving DecidableEq, Repr

/-- ent-side table annotation (`entsql.Annotation` fields read by `atTable`).
The Go `Checks` map is embedded as an association list with distinct keys. -/
structure Annotation where
  Charset : String := ""
  Collation : String := ""
  Options : String := ""
  Check : String := ""
  Checks : List (String × String) := []
deriving DecidableEq, Repr

/-- ent-side abstract table. -/
structure Table where
  Name : String
  Columns : List Column := []
  PrimaryKey : List Column := []
  ForeignKeys : List ForeignKey := []
  Indexes : List Index := []
  Annotation : Option Annotation := none
deriving DecidableEq, Repr

/-- atlas-native column types produced by `atTypeC` (the `schema.Type`
values; each constructor carries the `T` string and extra fields actually
set by atlas.go). -/
inductive AType where
  | boolean (t : String)
  | integer (t : String) (unsigned : Bool)
  | binary (t : String)
  | json (t : String)
  | strType (t : String) (size : Int)
  | float (t : String)
  | time (t : String)
  | enum (t : String) (values : List String)
  | parsed (raw : String)
deriving DecidableEq, Repr

/-- atlas attributes added by atlas.go (`mysql.AutoIncrement`,
`mysql.CreateOptions`, `mysql.SubPart`). -/
inductive AAttr where
  | autoIncrement (v : Int)
  | createOptions (v : String)
  | subPart (len : Int)
deriving DecidableEq, Repr

/-- atlas-native column (`schema.Column` with its `ColumnType`); the column
type is `none` while the Go `Type.Type` interface is nil. -/
structure AColumn where
  name : String
  null : Bool := false
  collation : Option String := none
  ctype : Option AType := none
  default : Option String := none
  attrs : List AAttr := []
deriving DecidableEq, Repr

/-- one part of an atlas index; the referenced column pointer is embedded by
name. -/
structure APart where
  column : String
  attrs : List AAttr := []
deriving DecidableEq, Repr

/-- atlas-native index. -/
structure AIndex where
  name : String
  unique : Bool := false
  parts : List APart := []
deriving DecidableEq, Repr

/-- atlas-native foreign key; peer tables and columns embedded by name. -/
structure AFK where
  symbol : String
  table : String := ""
  columns : List String := []
  refTable : String := ""
  refColumns : List String := []
  onUpdate : String := ""
  onDelete : String := ""
deriving DecidableEq, Repr

/-- atlas-native table.  `checks` pairs an optional check name with its
expression; `primaryKey` lists the primary-key column names in order. -/
structure ATable where
  name : String
  charset : Option String := none
  collation : Option String := none
  attrs : List AAttr := []
  checks : List (Option String × String) := []
  columns : List AColumn := []
  primaryKey : List String := []
  indexes : List AIndex := []
  fks : List AFK := []
deriving DecidableEq, Repr

/-- `schema.NewTable(name)`. -/
def newATable (name : String) : ATable := { name := name }

/-- `schema.NewColumn(c1.Name).SetNull(c1.Nullable)` (line 87-88). -/
def newAColumn (c1 : Column) : AColumn := { name := c1.Name, null := c1.Nullable }

/-- `t2.Column(name)`: first column of the table with the given name. -/
def lookupColumn (t2 : ATable) (name : String) : Option AColumn :=
  t2.columns.find? (fun c => c.name == name)

/-- the ref-table search loop of lines 62-67: first table in the translated
set with the given name. -/
def lookupTable (ts2 : List ATable) (name : String) : Option ATable :=
  ts2.find? (fun t => t.name == name)

/-- The MySQL dialect value (`*MySQL`).  `mariadbB` is the boolean component
of `d.mariadb()`, `parseType` stands for `mysql.ParseType` and `defaultSize`
for `d.defaultSize(c1)` (all defined outside the provided sources). -/
structure MySQLD where
  version : String
  mariadbB : Bool := false
  parseType : String → Except AErr AType := fun s => .error (.typeParse s)
  defaultSize : Int := 255

/-- Modelled from the spec: `compareVersions` is not under the provided
sources; the spec describes version guards as numeric comparisons of dotted
version strings ("5.7.8 or later", "earlier than 8.0.2").  Components are
compared numerically left to right, missing components count as 0; the result
is -1, 0 or 1. -/
def compareVersions (v1 v2 : String) : Int :=
  let c1 := (v1.splitOn ".").map (fun s => s.toNat?.getD 0)
  let c2 := (v2.splitOn ".").map (fun s => s.toNat?.getD 0)
  let rec go : List Nat → List Nat → Int
    | [], [] => 0
    | x :: xs, [] => if x > 0 then 1 else go xs []
    | [], y :: ys => if y > 0 then -1 else go [] ys
    | x :: xs, y :: ys => if x < y then -1 else if y < x then 1 else go xs ys
  go c1 c2

/-- `c1.scanTypeOr(t)`: the recorded scan type when present, else the given
default (method defined outside the provided sources; modelled from its
usage as a default-or-override of the native type string). -/
def scanTypeOr (c1 : Column) (t : String) : String :=
  if c1.scantyp == "" then t else c1.scantyp

/-- The `switch c1.ftype` of `atTypeC` (lines 183-261), producing the value of
the outer variable `t` after the switch together with the column as mutated by
the branch bodies.  In the `default:` branch (line 256) `t, err :=` declares a
fresh `t` shadowing the outer one, so the branch assigns `c2.Type.Type`
directly and the outer `t` stays nil (`none`). -/
def atTypeCore (d : MySQLD) (c1 : Column) (c2 : AColumn) :
    Except AErr (Option AType × AColumn) :=
  match c1.ftype with
  | .bool => .ok (some (.boolean "boolean"), c2)
  | .int8 => .ok (some (.integer "tinyint" false), c2)
  | .uint8 => .ok (some (.integer "tinyint" true), c2)
  | .int16 => .ok (some (.integer "smallint" false), c2)
  | .uint16 => .ok (some (.integer "smallint" true), c2)
  | .int32 => .ok (some (.integer "int" false), c2)
  | .uint32 => .ok (some (.integer "int" true), c2)
  | .int => .ok (some (.integer "bigint" false), c2)
  | .int64 => .ok (some (.integer "bigint" false), c2)
  | .uint => .ok (some (.integer "bigint" true), c2)
  | .uint64 => .ok (some (.integer "bigint" true), c2)
  | .bytes =>
      -- lines 203-217: `size := int64(math.MaxUint16); if c1.Size > 0 { size = c1.Size }`
      -- followed by a switch with no default case, so an oversized value
      -- leaves `t` nil.
      let size : Int := if c1.Size > 0 then c1.Size else 65535
      let t : Option AType :=
        if size ≤ 255 then some (.binary "tinyblob")
        else if size ≤ 65535 then some (.binary "blob")
        else if size < 16777216 then some (.binary "mediumblob")
        else if size ≤ 4294967295 then some (.binary "longblob")
        else none
      .ok (t, c2)
  | .json =>
      -- lines 218-222
      let t : AType :=
        if compareVersions d.version "5.7.8" == -1 then .binary "longblob"
        else .json "json"
      .ok (some t, c2)
  | .string =>
      -- lines 223-237
      let size : Int := if c1.Size == 0 then d.defaultSize else c1.Size
      let t : AType :=
        if c1.typ == "tinytext" || c1.typ == "text" then .strType c1.typ 0
        else if size ≤ 65535 then .strType "varchar" size
        else if size == 16777215 then .strType "mediumtext" 0
        else .strType "longtext" 0
      .ok (some t, c2)
  | .float32 => .ok (some (.float (scanTypeOr c1 "double")), c2)
  | .float64 => .ok (some (.float (scanTypeOr c1 "double")), c2)
  | .time =>
      -- lines 240-247: Go precedence parses the guard as
      -- `maria || (compareVersions(d.version, "8.0.2") == -1 && c1.Default == nil)`.
      let t : AType := .time (scanTypeOr c1 "timestamp")
      let c2 :=
        if d.mariadbB || (compareVersions d.version "8.0.2" == -1 && c1.Default.isNone)
        then { c2 with null := c1.Attr == "" }
        else c2
      .ok (some t, c2)
  | .enum => .ok (some (.enum "enum" c1.Enums), c2)
  | .uuid =>
      -- lines 250-254
      .ok (some (.strType "char" 36), { c2 with collation := some "utf8mb4_bin" })
  | .other =>
      -- lines 255-261: the `default:` branch; its `t` shadows the outer one.
      match d.parseType c1.typ with
      | .error e => .error e
      | .ok t => .ok (none, { c2 with ctype := some t })

/-- `strings.ToLower`. -/
def goToLower (s : String) : String := String.mk (s.data.map Char.toLower)

/-- `(*MySQL).atTypeC` (lines 174-264).  The `SchemaType` override
short-circuits (lines 175-182); otherwise the switch runs and line 262 assigns
the outer `t` to the column type. -/
def atTypeC (d : MySQLD) (c1 : Column) (c2 : AColumn) : Except AErr AColumn :=
  if c1.SchemaTypeMySQL != "" then
    match d.parseType (goToLower c1.SchemaTypeMySQL) with
    | .error e => .error e
    | .ok t => .ok { c2 with ctype := some t }
  else
    match atTypeCore d c1 c2 with
    | .error e => .error e
    | .ok (t, c2h) => .ok { c2h with ctype := t }

/-- the single-quote character (ASCII 39). -/
def squote : Char := Char.ofNat 39

/-- `strings.ReplaceAll` at line 100 specialised to the single-character
pattern used at line 100: every single quote is doubled. -/
def escapeQuotes (s : String) : String :=
  String.mk (s.data.foldr (fun c acc => if c = squote then squote :: squote :: acc else c :: acc) [])

/-- The default-expression rendering of lines 97-101: `x := fmt.Sprint(v)`,
overwritten with the quoted, quote-doubled form when the default is a Go
string and the column type is neither UUID nor time. -/
def renderDefault (c1 : Column) (v : GoValue) : String :=
  let x := goSprint v
  match v with
  | .str s =>
      if c1.ftype != FieldType.uuid && c1.ftype != FieldType.time
      then String.mk [squote] ++ escapeQuotes s ++ String.mk [squote]
      else x
  | .raw _ => x

/-- `strings.HasPrefix`, on character lists: returns the remainder after the
prefix when the prefix matches. -/
def dropPrefixL : List Char → List Char → Option (List Char)
  | [], rest => some rest
  | _ :: _, [] => none
  | p :: ps, c :: cs => if p = c then dropPrefixL ps cs else none

/-- `strings.TrimLeft(s, cutset)`: removes the longest leading run of
characters each of which occurs in `cutset` (a character set, not a
prefix). -/
def trimLeftCutset (s cutset : String) : String :=
  String.mk (s.data.dropWhile (fun c => cutset.data.contains c))

/-- digit-string value: `some` of the base-10 value when the list is nonempty
and all digits, else `none`. -/
def digitsVal? (ds : List Char) : Option Nat :=
  match ds with
  | [] => none
  | _ =>
    ds.foldlM (fun acc c => if c.isDigit then some (acc * 10 + (c.toNat - 48)) else none) 0

/-- `strconv.ParseInt(s, 10, 64)`: optional sign, nonempty digit run, value
within the signed 64-bit range; `none` on any parse error. -/
def parseInt64? (s : String) : Option Int :=
  let core (neg : Bool) (ds : List Char) : Option Int :=
    match digitsVal? ds with
    | none => none
    | some n =>
        if neg then (if (n : Int) ≤ 9223372036854775808 then some (-(n : Int)) else none)
        else (if (n : Int) ≤ 9223372036854775807 then some (n : Int) else none)
  match s.data with
  | [] => none
  | c :: rest =>
      if c = '-' then core true rest
      else if c = '+' then core false rest
      else core false (c :: rest)

/-- `(*MySQL).atImplicitIndexName` (lines 287-296).  Note line 294 uses
`strings.TrimLeft` with the cutset `c1.Name + "_"`, not a prefix strip. -/
def atImplicitIndexName (idx : Index) (c1 : Column) : Bool :=
  if idx.Name == c1.Name then true
  else if (dropPrefixL (c1.Name ++ "_").data idx.Name.data).isNone then false
  else
    match parseInt64? (trimLeftCutset idx.Name (c1.Name ++ "_")) with
    | some i => i > 1
    | none => false

/-- `(*MySQL).atUniqueC` (lines 266-277): scan the table's explicit indexes
and return early (adding nothing) when a unique one passes the implicit-name
test; otherwise add `schema.NewUniqueIndex(c1.Name).AddColumns(c2)`. -/
def atUniqueC (t1 : Table) (c1 : Column) (t2 : ATable) (c2 : AColumn) : ATable :=
  if t1.Indexes.any (fun idx => idx.Unique && atImplicitIndexName idx c1) then t2
  else
    { t2 with indexes :=
        t2.indexes ++ [{ name := c1.Name, unique := true, parts := [{ column := c2.name }] }] }

/-- `(*MySQL).atIncrementC` (lines 279-281). -/
def atIncrementC (c : AColumn) : AColumn :=
  { c with attrs := c.attrs ++ [.autoIncrement 0] }

/-- `(*MySQL).atIncrementT` (lines 283-285). -/
def atIncrementT (t : ATable) (v : Int) : ATable :=
  { t with attrs := t.attrs ++ [.autoIncrement v] }

/-- insertion of a named check keeping keys sorted; `atTable` iterates the
`Checks` map in `sort.Strings` order of its keys (lines 159-171), embedded by
sorting the association list by key. -/
def insertCheck (p : String × String) : List (String × String) → List (String × String)
  | [] => [p]
  | q :: qs => if p.1 ≤ q.1 then p :: q :: qs else q :: insertCheck p qs

/-- association list sorted by key (stable insertion sort). -/
def sortChecks (l : List (String × String)) : List (String × String) :=
  l.foldr insertCheck []

/-- `(*MySQL).atTable` (lines 138-172). -/
def atTable (t1 : Table) (t2 : ATable) : ATable :=
  let t2 := { t2 with charset := some "utf8mb4", collation := some "utf8mb4_bin" }
  match t1.Annotation with
  | none => t2
  | some a =>
      let t2 := if a.Charset != "" then { t2 with charset := some a.Charset } else t2
      let t2 := if a.Collation != "" then { t2 with collation := some a.Collation } else t2
      let t2 := if a.Options != "" then { t2 with attrs := t2.attrs ++ [.createOptions a.Options] } else t2
      let t2 := if a.Check != "" then { t2 with checks := t2.checks ++ [(none, a.Check)] } else t2
      if a.Checks.length > 0 then
        { t2 with checks := t2.checks ++ (sortChecks a.Checks).map (fun p => (some p.1, p.2)) }
      else t2

/-- lines 87-91 of the column loop of `aColumns`: the base column
(`schema.NewColumn(c1.Name).SetNull(c1.Nullable)`) with its collation set
when non-empty. -/
def baseCol (c1 : Column) : AColumn :=
  let c2 := newAColumn c1
  if c1.Collation != "" then { c2 with collation := some c1.Collation } else c2

/-- one iteration of the column loop of `aColumns` (lines 86-111), continued:
run `atTypeC`, render a supported default, attach the implicit unique index,
mark auto-increment, and append the column. -/
def aColumnStep (d : MySQLD) (t1 : Table) (t2 : ATable) (c1 : Column) :
    Except AErr ATable :=
  match atTypeC d c1 (baseCol c1) with
  | .error e => .error e
  | .ok c2 =>
      let c2 :=
        match c1.Default with
        | some v => if c1.supportDefaultB then { c2 with default := some (renderDefault c1 v) } else c2
        | none => c2
      let t2 := if c1.Unique then atUniqueC t1 c1 t2 c2 else t2
      let c2 := if c1.Increment then atIncrementC c2 else c2
      .ok { t2 with columns := t2.columns ++ [c2] }

/-- the column loop of `aColumns`, over the remaining columns. -/
def aColumnsAux (d : MySQLD) (t1 : Table) (t2 : ATable) : List Column → Except AErr ATable
  | [] => .ok t2
  | c1 :: cs =>
      match aColumnStep d t1 t2 c1 with
      | .error e => .error e
      | .ok t2 => aColumnsAux d t1 t2 cs

/-- `(*Migrate).aColumns` (lines 85-113). -/
def aColumns (d : MySQLD) (t1 : Table) (t2 : ATable) : Except AErr ATable :=
  aColumnsAux d t1 t2 t1.Columns

/-- the primary-key loop of `aIndexes` (lines 117-124): resolve each
primary-key column by name in the translated table. -/
def resolvePK (t2 : ATable) : List Column → Except AErr (List String)
  | [] => .ok []
  | c1 :: cs =>
      match lookupColumn t2 c1.Name with
      | none => .error (.pkColumn c1.Name)
      | some c2 =>
          match resolvePK t2 cs with
          | .error e => .error e
          | .ok ns => .ok (c2.name :: ns)

/-- the column loop of `(*MySQL).atIndex` (lines 298-312): resolve each index
column in the translated table, attaching a `SubPart` attribute when the
index records a prefix length for it. -/
def atIndexAux (idx1 : Index) (t2 : ATable) (idx2 : AIndex) : List Column → Except AErr AIndex
  | [] => .ok idx2
  | c1 :: cs =>
      match lookupColumn t2 c1.Name with
      | none => .error (.indexColumn idx1.Name c1.Name)
      | some c2 =>
          let part : APart :=
            match (idx1.prefixes.find? (fun p => p.1 == c1.Name)) with
            | some p => { column := c2.name, attrs := [.subPart p.2] }
            | none => { column := c2.name }
          atIndexAux idx1 t2 { idx2 with parts := idx2.parts ++ [part] } cs

/-- `(*MySQL).atIndex` (lines 298-312). -/
def atIndex (idx1 : Index) (t2 : ATable) (idx2 : AIndex) : Except AErr AIndex :=
  atIndexAux idx1 t2 idx2 idx1.Columns

/-- the explicit-index loop of `aIndexes` (lines 127-134). -/
def aIndexesAux (t2 : ATable) : List Index → Except AErr ATable
  | [] => .ok t2
  | idx1 :: rest =>
      match atIndex idx1 t2 { name := idx1.Name, unique := idx1.Unique } with
      | .error e => .error e
      | .ok idx2 => aIndexesAux { t2 with indexes := t2.indexes ++ [idx2] } rest

/-- `(*Migrate).aIndexes` (lines 115-136): primary key first, then the
explicit indexes. -/
def aIndexes (t1 : Table) (t2 : ATable) : Except AErr ATable :=
  match resolvePK t2 t1.PrimaryKey with
  | .error e => .error e
  | .ok pk => aIndexesAux { t2 with primaryKey := pk } t1.Indexes

/-- The migration context: the `universalID` flag, and `pkRange` standing for
the live-database query `m.pkRange(ctx, m.sqlDialect, t1)` (I/O against the
connected database, outside the provided sources), embedded as an oracle from
the table to its increment range or a database error. -/
structure Migrate where
  universalID : Bool := false
  pkRange : Table → Except AErr Int := fun _ => .error (.db "no database")

/-- the column-resolution loops of the foreign-key pass (lines 54-60 and
72-78); `mkErr` selects between the local-column and ref-column error
formats. -/
def resolveCols (mkErr : String → AErr) (t2 : ATable) : List Column → Except AErr (List String)
  | [] => .ok []
  | c1 :: cs =>
      match lookupColumn t2 c1.Name with
      | none => .error (mkErr c1.Name)
      | some c2 =>
          match resolveCols mkErr t2 cs with
          | .error e => .error e
          | .ok ns => .ok (c2.name :: ns)

/-- the body of the foreign-key loop (lines 49-79): build the atlas foreign
key, resolving local columns in `t2`, the referenced table by name in the
translated set, and the referenced columns in that table. -/
def resolveFK (t2 : ATable) (ts2 : List ATable) (fk1 : ForeignKey) : Except AErr AFK :=
  match resolveCols (fun c => .fkColumn fk1.Symbol c) t2 fk1.Columns with
  | .error e => .error e
  | .ok cols =>
      match lookupTable ts2 fk1.RefTableName with
      | none => .error (.fkRefTable fk1.Symbol fk1.RefTableName)
      | some refT =>
          match resolveCols (fun c => .fkRefColumn fk1.Symbol c) refT fk1.RefColumns with
          | .error e => .error e
          | .ok refCols =>
              .ok { symbol := fk1.Symbol, table := t2.name, columns := cols,
                    refTable := refT.name, refColumns := refCols,
                    onUpdate := fk1.OnUpdate, onDelete := fk1.OnDelete }

/-- the per-table foreign-key loop of the second pass: resolve each foreign
key against the full translated set `ts2` and append it to the table. -/
def attachFKs (ts2 : List ATable) (t2 : ATable) : List ForeignKey → Except AErr ATable
  | [] => .ok t2
  | fk1 :: fks =>
      match resolveFK t2 ts2 fk1 with
      | .error e => .error e
      | .ok fk2 => attachFKs ts2 { t2 with fks := t2.fks ++ [fk2] } fks

/-- the first-pass body of `aTables` (lines 30-45): table attributes, the
universal-ID increment range, columns, then indexes. -/
def buildTable (m : Migrate) (d : MySQLD) (t1 : Table) : Except AErr ATable :=
  let t2 := atTable t1 (newATable t1.Name)
  match (if m.universalID then (m.pkRange t1).map (atIncrementT t2) else .ok t2) with
  | .error e => .error e
  | .ok t2 =>
      match aColumns d t1 t2 with
      | .error e => .error e
      | .ok t2 => aIndexes t1 t2

/-- the first pass of `aTables` (lines 29-46), over all tables. -/
def buildAll (m : Migrate) (d : MySQLD) : List Table → Except AErr (List ATable)
  | [] => .ok []
  | t1 :: ts =>
      match buildTable m d t1 with
      | .error e => .error e
      | .ok t2 =>
          match buildAll m d ts with
          | .error e => .error e
          | .ok rest => .ok (t2 :: rest)

/-- the second pass of `aTables` (lines 47-81): walk the input tables and the
translated tables in lockstep, attaching each table's foreign keys resolved
against the full translated set. -/
def attachAll (ts2 : List ATable) : List Table → List ATable → Except AErr (List ATable)
  | [], _ => .ok []
  | _ :: _, [] => .ok []
  | t1 :: ts, t2 :: rest =>
      match attachFKs ts2 t2 t1.ForeignKeys with
      | .error e => .error e
      | .ok t2f =>
          match attachAll ts2 ts rest with
          | .error e => .error e
          | .ok out => .ok (t2f :: out)

/-- `(*Migrate).aTables` (lines 27-83): build every table, then resolve
foreign keys in a second pass against the full translated set. -/
def aTables (m : Migrate) (d : MySQLD) (ts : List Table) : Except AErr (List ATable) :=
  match buildAll m d ts with
  | .error e => .error e
  | .ok ts2 => attachAll ts2 ts ts2

/-! ### Concrete dialect and column constructors used by the claims -/

/-- a MySQL dialect value at server version 8.0.19 (not MariaDB). -/
def dMy : MySQLD := { version := "8.0.19" }

/-- a bytes-typed column of the given `Size`, with no per-dialect schema-type
override. -/
def bytesCol (size : Int) : Column := { Name := "b", ftype := .bytes, Size := size }

/-- a JSON-typed column with no per-dialect schema-type override. -/
def jsonCol : Column := { Name := "j", ftype := .json }

/-- a MySQL dialect value at the given version string. -/
def dVer (v : String) : MySQLD := { version := v }

/-! ### C5 -/

/-- C5: for every bytes-typed column, `atTypeC` selects the native blob type
by maximum size tier: sizes up to 2^8-1 map to tinyblob, sizes up to 2^16-1
map to blob, sizes below 2^24 map to mediumblob, sizes up to 2^32-1 map to
longblob; when `Size` is 0 or negative, the 64KB tier (blob) is selected. -/
theorem C5_bytes_blob_tiers (size : Int) :
    ((0 < size ∧ size ≤ 255) →
      atTypeC dMy (bytesCol size) (newAColumn (bytesCol size)) =
        .ok { newAColumn (bytesCol size) with ctype := some (.binary "tinyblob") })
    ∧ ((255 < size ∧ size ≤ 65535) →
      atTypeC dMy (bytesCol size) (newAColumn (bytesCol size)) =
        .ok { newAColumn (bytesCol size) with ctype := some (.binary "blob") })
    ∧ ((65535 < size ∧ size < 16777216) →
      atTypeC dMy (bytesCol size) (newAColumn (bytesCol size)) =
        .ok { newAColumn (bytesCol size) with ctype := some (.binary "mediumblob") })
    ∧ ((16777216 ≤ size ∧ size ≤ 4294967295) →
      atTypeC dMy (bytesCol size) (newAColumn (bytesCol size)) =
        .ok { newAColumn (bytesCol size) with ctype := some (.binary "longblob") })
    ∧ (size ≤ 0 →
      atTypeC dMy (bytesCol size) (newAColumn (bytesCol size)) =
        .ok { newAColumn (bytesCol size) with ctype := some (.binary "blob") }) := by
  refine ⟨?_, ?_, ?_, ?_, ?_⟩ <;> intro h <;>
    simp only [atTypeC, atTypeCore, bytesCol, newAColumn] <;>
    split_ifs <;> first | rfl | (exfalso; omega) | simp_all

/-- C5 witness: the theorem instantiated at one size per tier, including the
unspecified-size default. -/
theorem C5_bytes_blob_tiers_witness :
    (atTypeC dMy (bytesCol 100) (newAColumn (bytesCol 100)) =
      .ok { newAColumn (bytesCol 100) with ctype := some (.binary "tinyblob") })
    ∧ (atTypeC dMy (bytesCol 65535) (newAColumn (bytesCol 65535)) =
      .ok { newAColumn (bytesCol 65535) with ctype := some (.binary "blob") })
    ∧ (atTypeC dMy (bytesCol 70000) (newAColumn (bytesCol 70000)) =
      .ok { newAColumn (bytesCol 70000) with ctype := some (.binary "mediumblob") })
    ∧ (atTypeC dMy (bytesCol 4294967295) (newAColumn (bytesCol 4294967295)) =
      .ok { newAColumn (bytesCol 4294967295) with ctype := some (.binary "longblob") })
    ∧ (atTypeC dMy (bytesCol 0) (newAColumn (bytesCol 0)) =
      .ok { newAColumn (bytesCol 0) with ctype := some (.binary "blob") }) :=
  ⟨(C5_bytes_blob_tiers 100).1 (by norm_num),
   (C5_bytes_blob_tiers 65535).2.1 (by norm_num),
   (C5_bytes_blob_tiers 70000).2.2.1 (by norm_num),
   (C5_bytes_blob_tiers 4294967295).2.2.2.1 (by norm_num),
   (C5_bytes_blob_tiers 0).2.2.2.2 (by norm_num)⟩

/-! ### C9 -/

/-- C9: for every bytes-typed column whose `Size` exceeds 2^32-1, `atTypeC`
returns success while selecting no blob tier at all: the translated column's
native type is `none` (the Go nil interface), not a `TypeParseError`. -/
theorem C9_oversized_bytes_silent (size : Int) (h : 4294967295 < size) :
    atTypeC dMy (bytesCol size) (newAColumn (bytesCol size)) =
      .ok { newAColumn (bytesCol size) with ctype := none } := by
  simp only [atTypeC, atTypeCore, bytesCol, newAColumn]
  split_ifs <;> first | rfl | (exfalso; omega) | simp_all

/-- C9 witness: the theorem at `Size = 2^32`. -/
theorem C9_oversized_bytes_silent_witness :
    atTypeC dMy (bytesCol 4294967296) (newAColumn (bytesCol 4294967296)) =
      .ok { newAColumn (bytesCol 4294967296) with ctype := none } :=
  C9_oversized_bytes_silent 4294967296 (by norm_num)

/-! ### C7 -/

/-- C7: for every JSON-typed column, `atTypeC` produces the native JSON column
type unless the connected server version compares strictly less than 5.7.8
(`compareVersions` yields -1), in which case it produces the largest blob type
(longblob). -/
theorem C7_json_native_or_longblob (v : String) :
    atTypeC (dVer v) jsonCol (newAColumn jsonCol) =
      .ok { newAColumn jsonCol with
            ctype := some (if compareVersions v "5.7.8" == -1
                           then .binary "longblob" else .json "json") } := by
  rfl

/-! ### C10 -/

/-- C10: every table translated for MySQL carries charset "utf8mb4" and
collation "utf8mb4_bin" when it has no annotation or its annotation leaves
the field empty; a non-empty annotation charset or collation replaces the
corresponding default, and the other default is kept. -/
theorem C10_charset_collation_defaults (t1 : Table) :
    ((atTable t1 (newATable t1.Name)).charset =
      some (match t1.Annotation with
            | none => "utf8mb4"
            | some a => if a.Charset = "" then "utf8mb4" else a.Charset))
    ∧ ((atTable t1 (newATable t1.Name)).collation =
      some (match t1.Annotation with
            | none => "utf8mb4_bin"
            | some a => if a.Collation = "" then "utf8mb4_bin" else a.Collation)) := by
  cases h : t1.Annotation with
  | none => simp [atTable, h, newATable]
  | some a =>
      simp only [atTable, h, newATable]
      constructor <;> split_ifs <;> simp_all [bne_iff_ne]

/-! ### C6 -/

/-- `atUniqueC` only ever touches the index list of the table. -/
theorem atUniqueC_columns (t1 : Table) (c1 : Column) (t2 : ATable) (c2 : AColumn) :
    (atUniqueC t1 c1 t2 c2).columns = t2.columns := by
  unfold atUniqueC; split <;> rfl

/-- C6: for every column with a default value supported by the database, a
string default on a column whose type is neither UUID nor time is rendered
wrapped in single quotes with every embedded single quote doubled; on a UUID-
or time-typed column the default is rendered as its unquoted printed form;
and the column appended by the translation loop carries exactly that rendered
expression. -/
theorem C6_default_rendering :
    (∀ (c1 : Column) (s : String), c1.ftype ≠ FieldType.uuid → c1.ftype ≠ FieldType.time →
      renderDefault c1 (.str s) = String.mk [squote] ++ escapeQuotes s ++ String.mk [squote])
    ∧ (∀ (c1 : Column) (v : GoValue), c1.ftype = FieldType.uuid ∨ c1.ftype = FieldType.time →
      renderDefault c1 v = goSprint v)
    ∧ (∀ (d : MySQLD) (t1 : Table) (t2 t2' : ATable) (c1 : Column) (v : GoValue),
        c1.Default = some v → c1.supportDefaultB = true →
        aColumnStep d t1 t2 c1 = .ok t2' →
        ∃ c2, t2'.columns = t2.columns ++ [c2] ∧ c2.default = some (renderDefault c1 v)) := by
  refine ⟨?_, ?_, ?_⟩
  · intro c1 s h1 h2
    simp [renderDefault, bne_iff_ne, h1, h2]
  · intro c1 v h
    cases v with
    | str s =>
        rcases h with h | h <;> simp [renderDefault, h, goSprint]
    | raw p => rfl
  · intro d t1 t2 t2' c1 v hv hs hstep
    simp only [aColumnStep] at hstep
    split at hstep
    · simp at hstep
    next c2t heq =>
      simp only [hv, hs, reduceIte] at hstep
      injection hstep with h
      subst h
      refine ⟨if c1.Increment = true
                then atIncrementC { c2t with default := some (renderDefault c1 v) }
                else { c2t with default := some (renderDefault c1 v) }, ?_, ?_⟩
      · show (if c1.Unique = true then _ else t2).columns ++ _ = _
        split <;> simp [atUniqueC_columns]
      · split <;> rfl

/-- a string default containing an embedded single quote. -/
def nickS : String := String.mk ['O', squote, 'B']

/-- string column with a supported quoted default. -/
def c6str : Column :=
  { Name := "nick", ftype := .string, Default := some (.str nickS), supportDefaultB := true }

/-- time column with a supported string default. -/
def c6time : Column :=
  { Name := "at", ftype := .time, Default := some (.str "now"), supportDefaultB := true }

/-- table holding the string column. -/
def t6 : Table := { Name := "t", Columns := [c6str] }

/-- C6 witness: the three parts instantiated at string and time columns with
concrete defaults. -/
theorem C6_default_rendering_witness :
    (renderDefault c6str (.str nickS) =
      String.mk [squote] ++ escapeQuotes nickS ++ String.mk [squote])
    ∧ (renderDefault c6time (.str "now") = goSprint (.str "now"))
    ∧ (∃ c2, ((aColumnStep dMy t6 (newATable "t") c6str).toOption.getD
                (newATable "t")).columns = (newATable "t").columns ++ [c2]
          ∧ c2.default = some (renderDefault c6str (.str nickS))) :=
  ⟨C6_default_rendering.1 c6str nickS (by decide) (by decide),
   C6_default_rendering.2.1 c6time (.str "now") (Or.inr rfl),
   C6_default_rendering.2.2 dMy t6 (newATable "t") _ c6str (.str nickS) rfl rfl rfl⟩

/-! ### C2 -/

/-- The implicit-naming convention as the claim states it (for comparison
with the source's `atImplicitIndexName`): the column name itself, or the
column name followed by an underscore and a numeric suffix whose value is at
least 2. -/
def specImplicitName (idxName colName : String) : Bool :=
  idxName == colName ||
  (match dropPrefixL (colName ++ "_").data idxName.data with
   | some rest => !rest.isEmpty && rest.all Char.isDigit && (digitsVal? rest).getD 0 ≥ 2
   | none => false)

/-- a plain column named "d". -/
def colD : Column := { Name := "d", ftype := .string }

/-- a unique column named "c". -/
def cU : Column := { Name := "c", ftype := .string, Unique := true }

/-- an explicit unique index named "c" covering only column "d" (not the
unique column "c"). -/
def idxC : Index := { Name := "c", Unique := true, Columns := [colD] }

/-- table with the unique column "c" and the explicit index "c" on "d". -/
def t1cex : Table := { Name := "t", Columns := [cU, colD], Indexes := [idxC] }

/-- C2 counterexample: in `t1cex` no explicit unique index covers exactly the
unique column "c" (the only index "c" covers "d"), so the claim demands that
exactly one implicit unique index named "c" on column "c" be added; but
`atUniqueC` suppresses the implicit index on the index's *name* alone, never
inspecting its columns, and adds nothing. -/
theorem C2_counterexample :
    ¬ ((∀ idx ∈ t1cex.Indexes,
          ¬ (idx.Unique = true ∧ idx.Columns.map Column.Name = [cU.Name]
             ∧ specImplicitName idx.Name cU.Name = true)) →
       (atUniqueC t1cex cU (newATable "t") (baseCol cU)).indexes =
         (newATable "t").indexes ++
           [{ name := cU.Name, unique := true, parts := [{ column := cU.Name }] }]) := by
  decide

/-- C2 amended: for a column marked `Unique`, no implicit unique index is
added exactly when some explicit unique index of the table passes the
source's name test `atImplicitIndexName` (name equal to the column name, or
name starting with the column name plus underscore whose remainder after
trimming the cutset of those characters parses as an integer greater than 1)
— regardless of which columns that index covers; otherwise exactly one unique
index named after the column and containing exactly that column is added. -/
theorem C2_amended (t1 : Table) (c1 : Column) (t2 : ATable) (c2 : AColumn)
    (hname : c2.name = c1.Name) :
    (atUniqueC t1 c1 t2 c2).indexes =
      if ∃ idx ∈ t1.Indexes, idx.Unique = true ∧ atImplicitIndexName idx c1 = true
      then t2.indexes
      else t2.indexes ++
        [{ name := c1.Name, unique := true, parts := [{ column := c1.Name }] }] := by
  have hb : (t1.Indexes.any (fun idx => idx.Unique && atImplicitIndexName idx c1) = true)
      ↔ (∃ idx ∈ t1.Indexes, idx.Unique = true ∧ atImplicitIndexName idx c1 = true) := by
    simp [List.any_eq_true, Bool.and_eq_true]
  by_cases hex : ∃ idx ∈ t1.Indexes, idx.Unique = true ∧ atImplicitIndexName idx c1 = true
  · rw [if_pos hex]
    unfold atUniqueC
    rw [if_pos (hb.mpr hex)]
  · rw [if_neg hex]
    unfold atUniqueC
    rw [if_neg (fun hh => hex (hb.mp hh))]
    rw [hname]

/-- a table holding only the unique column "c", with no explicit indexes. -/
def tw2 : Table := { Name := "w", Columns := [cU] }

/-- C2 amended witness: with no explicit indexes, exactly the one implicit
unique index named "c" on column "c" is added. -/
theorem C2_amended_witness :
    (atUniqueC tw2 cU (newATable "w") (baseCol cU)).indexes =
      if ∃ idx ∈ tw2.Indexes, idx.Unique = true ∧ atImplicitIndexName idx cU = true
      then (newATable "w").indexes
      else (newATable "w").indexes ++
        [{ name := cU.Name, unique := true, parts := [{ column := cU.Name }] }] :=
  C2_amended tw2 cU (newATable "w") (baseCol cU) rfl

/-! ### C3 -/

/-- a MariaDB dialect value. -/
def dMaria : MySQLD := { version := "10.5.8", mariadbB := true }

/-- a non-nullable time column with a default value already set and an empty
`Attr`. -/
def c3cex : Column :=
  { Name := "created", ftype := .time, Default := some (.raw "CURRENT_TIMESTAMP"),
    Nullable := false, Attr := "" }

/-- C3 counterexample: on MariaDB with a default value already set, the claim
says nullability is not forced (the translated column keeps
`Nullable = false`), but Go's operator precedence makes the guard
`maria || (version < 8.0.2 && Default == nil)`, so for MariaDB the
default-value exception never applies and the column is forced to
`Null = true`. -/
theorem C3_counterexample :
    ¬ (c3cex.Default.isSome = true →
       (atTypeC dMaria c3cex (baseCol c3cex)).toOption.map AColumn.null =
         some c3cex.Nullable) := by
  decide

/-- C3 amended: for a time column, `atTypeC` overwrites the translated
nullability exactly when the dialect is MariaDB, or it is MySQL with version
earlier than 8.0.2 and no default value is set (for MariaDB the overwrite
happens even when a default is set); the value written is true iff `Attr`
is empty — so a non-empty `Attr` forces `Null = false` rather than leaving
nullability unchanged.  Otherwise nullability is left as it was. -/
theorem C3_amended (d : MySQLD) (c1 : Column) (c2 : AColumn)
    (h1 : c1.ftype = FieldType.time) (h2 : c1.SchemaTypeMySQL = "") :
    atTypeC d c1 c2 = .ok { c2 with
      ctype := some (.time (scanTypeOr c1 "timestamp")),
      null := if d.mariadbB || (compareVersions d.version "8.0.2" == -1 && c1.Default.isNone)
              then c1.Attr == "" else c2.null } := by
  simp only [atTypeC, atTypeCore, h1, h2, bne_self_eq_false, Bool.false_eq_true, if_false]
  split_ifs <;> rfl

/-- C3 amended witness: the theorem at the MariaDB counterexample column,
where the overwrite yields `Null = true`. -/
theorem C3_amended_witness :
    atTypeC dMaria c3cex (baseCol c3cex) = .ok { baseCol c3cex with
      ctype := some (.time (scanTypeOr c3cex "timestamp")),
      null := if dMaria.mariadbB ||
                 (compareVersions dMaria.version "8.0.2" == -1 && c3cex.Default.isNone)
              then c3cex.Attr == "" else (baseCol c3cex).null } :=
  C3_amended dMaria c3cex (baseCol c3cex) rfl rfl

/-! ### C8 -/

/-- the first pass distributes over list append: the first error wins. -/
theorem buildAll_append (m : Migrate) (d : MySQLD) (pre rest : List Table) :
    buildAll m d (pre ++ rest) =
      match buildAll m d pre with
      | .error e => .error e
      | .ok ts2 =>
          match buildAll m d rest with
          | .error e => .error e
          | .ok ts2r => .ok (ts2 ++ ts2r) := by
  induction pre with
  | nil =>
      simp only [List.nil_append, buildAll]
      cases buildAll m d rest <;> rfl
  | cons t ts ih =>
      simp only [List.cons_append, buildAll, List.append_eq]
      rw [ih]
      cases buildTable m d t with
      | error e => rfl
      | ok t2 =>
          cases buildAll m d ts with
          | error e => rfl
          | ok l => cases buildAll m d rest <;> rfl

/-- C8: with universal-ID mode enabled, if the primary-key-range query fails
for a table (after any prefix of tables translated successfully), `aTables`
returns that database error and no table set.  The embedding consults the
`pkRange` oracle exactly once per table, before translating the table's
columns, so the failing query is never retried. -/
theorem C8_pkrange_error (m : Migrate) (d : MySQLD) (pre : List Table) (t : Table)
    (post : List Table) (ts2 : List ATable) (e : AErr)
    (h1 : m.universalID = true) (h2 : buildAll m d pre = .ok ts2)
    (h3 : m.pkRange t = .error e) :
    aTables m d (pre ++ t :: post) = .error e := by
  have hb : buildTable m d t = .error e := by
    unfold buildTable
    rw [h1]
    simp [h3, Except.map]
  unfold aTables
  rw [buildAll_append, h2]
  simp [buildAll, hb]

/-- a table whose primary-key range resolves. -/
def tUsers : Table :=
  { Name := "users",
    Columns := [{ Name := "id", ftype := .int, Increment := true }],
    PrimaryKey := [{ Name := "id", ftype := .int }] }

/-- a second table, for which the range query will fail. -/
def tPets : Table := { Name := "pets", Columns := [{ Name := "id", ftype := .int }] }

/-- a migration context in universal-ID mode whose range query succeeds for
"users" and fails for every other table. -/
def mFail : Migrate :=
  { universalID := true,
    pkRange := fun t => if t.Name == "users" then .ok 4294967296 else .error (.db "boom") }

/-- C8 witness: the range query fails on the second table and `aTables`
surfaces exactly that error. -/
theorem C8_pkrange_error_witness :
    aTables mFail dMy ([tUsers] ++ tPets :: []) = .error (.db "boom") :=
  C8_pkrange_error mFail dMy [tUsers] tPets [] ((buildAll mFail dMy [tUsers]).toOption.getD [])
    (.db "boom") rfl rfl rfl

/-! ### Toolkit: field preservation through the translation steps -/

/-- the switch of `atTypeC` never touches the column's name, default
expression or attribute list. -/
theorem atTypeCore_ok (d : MySQLD) (c1 : Column) (c2 : AColumn)
    (p : Option AType × AColumn) (h : atTypeCore d c1 c2 = .ok p) :
    p.2.name = c2.name ∧ p.2.default = c2.default ∧ p.2.attrs = c2.attrs := by
  simp only [atTypeCore] at h
  split at h <;>
    first
    | exact (Except.noConfusion h)
    | (injection h with h; subst h; refine ⟨?_, ?_, ?_⟩ <;> (try split) <;> rfl)
    | (split at h <;>
        first
        | exact (Except.noConfusion h)
        | (injection h with h; subst h; exact ⟨rfl, rfl, rfl⟩))

/-- `atTypeC` never touches the column's name, default expression or
attribute list. -/
theorem atTypeC_ok (d : MySQLD) (c1 : Column) (c2 c2' : AColumn)
    (h : atTypeC d c1 c2 = .ok c2') :
    c2'.name = c2.name ∧ c2'.default = c2.default ∧ c2'.attrs = c2.attrs := by
  unfold atTypeC at h
  split at h
  · split at h
    · exact (Except.noConfusion h)
    · injection h with h; subst h; exact ⟨rfl, rfl, rfl⟩
  · split at h
    · exact (Except.noConfusion h)
    next t c2h heq =>
      injection h with h; subst h
      exact atTypeCore_ok d c1 c2 (t, c2h) heq

/-- the base column carries the source column's name and nullability, no
default and no attributes. -/
theorem baseCol_spec (c1 : Column) :
    (baseCol c1).name = c1.Name ∧ (baseCol c1).null = c1.Nullable ∧
    (baseCol c1).default = none ∧ (baseCol c1).attrs = [] := by
  unfold baseCol newAColumn
  split <;> exact ⟨rfl, rfl, rfl, rfl⟩

/-- normal form of `atUniqueC`: the index list grows by the implicit index
exactly when no explicit unique index passes the name test. -/
theorem atUniqueC_norm (t1 : Table) (c1 : Column) (t2 : ATable) (c2 : AColumn) :
    atUniqueC t1 c1 t2 c2 =
      { t2 with indexes := t2.indexes ++
          (if t1.Indexes.any (fun idx => idx.Unique && atImplicitIndexName idx c1)
           then []
           else [{ name := c1.Name, unique := true, parts := [{ column := c2.name }] }]) } := by
  unfold atUniqueC
  split_ifs <;> simp

/-- the implicit-unique-index names contributed by one column: the column
name when it is unique and no explicit unique index passes the name test. -/
def implicitAdd (t1 : Table) (c1 : Column) : List String :=
  if c1.Unique && !(t1.Indexes.any (fun idx => idx.Unique && atImplicitIndexName idx c1))
  then [c1.Name] else []

/-- the implicit-unique-index names contributed by a column list, in column
order. -/
def implicitUniqueNames (t1 : Table) : List Column → List String
  | [] => []
  | c :: cs => implicitAdd t1 c ++ implicitUniqueNames t1 cs

/-- one step of the column loop: the translated table keeps its name, primary
key and foreign keys; its column names grow by the processed column's name
and its index names by that column's implicit-unique contribution. -/
theorem aColumnStep_ok (d : MySQLD) (t1 : Table) (t2 : ATable) (c1 : Column)
    (t2' : ATable) (h : aColumnStep d t1 t2 c1 = .ok t2') :
    t2'.name = t2.name ∧ t2'.primaryKey = t2.primaryKey ∧ t2'.fks = t2.fks ∧
    t2'.columns.map AColumn.name = t2.columns.map AColumn.name ++ [c1.Name] ∧
    t2'.indexes.map AIndex.name = t2.indexes.map AIndex.name ++ implicitAdd t1 c1 := by
  simp only [aColumnStep] at h
  split at h
  · exact (Except.noConfusion h)
  next c2t heq =>
    have hname : c2t.name = c1.Name := by
      rw [(atTypeC_ok d c1 (baseCol c1) c2t heq).1, (baseCol_spec c1).1]
    injection h with h
    subst h
    cases hd : c1.Default <;>
      cases hsup : c1.supportDefaultB <;>
        cases hu : c1.Unique <;>
          cases hi : c1.Increment <;>
            cases hany : t1.Indexes.any (fun idx => idx.Unique && atImplicitIndexName idx c1) <;>
              simp only [atUniqueC_norm] <;>
              simp only [hd, hsup, hu, hi, hany, implicitAdd, atIncrementC] <;>
              simp_all

/-- the whole column loop: column names are appended in input order and index
names grow by the implicit-unique contributions in column order. -/
theorem aColumnsAux_ok (d : MySQLD) (t1 : Table) (cs : List Column) (t2 t2' : ATable)
    (h : aColumnsAux d t1 t2 cs = .ok t2') :
    t2'.name = t2.name ∧ t2'.primaryKey = t2.primaryKey ∧ t2'.fks = t2.fks ∧
    t2'.columns.map AColumn.name = t2.columns.map AColumn.name ++ cs.map Column.Name ∧
    t2'.indexes.map AIndex.name =
      t2.indexes.map AIndex.name ++ implicitUniqueNames t1 cs := by
  induction cs generalizing t2 with
  | nil =>
      simp only [aColumnsAux] at h
      injection h with h
      subst h
      simp [implicitUniqueNames]
  | cons c cs ih =>
      simp only [aColumnsAux] at h
      split at h
      · exact (Except.noConfusion h)
      next t2m heq =>
        obtain ⟨e1, e2, e3, e4, e5⟩ := aColumnStep_ok d t1 t2 c t2m heq
        obtain ⟨f1, f2, f3, f4, f5⟩ := ih t2m h
        refine ⟨by rw [f1, e1], by rw [f2, e2], by rw [f3, e3], ?_, ?_⟩
        · rw [f4, e4]
          simp [implicitUniqueNames]
        · rw [f5, e5]
          simp [implicitUniqueNames]

/-- a by-name column lookup returns a column carrying that name. -/
theorem lookupColumn_name (t2 : ATable) (n : String) (c : AColumn)
    (h : lookupColumn t2 n = some c) : c.name = n := by
  unfold lookupColumn at h
  have := List.find?_some h
  simpa using this

/-- the primary-key loop yields the primary-key column names in order. -/
theorem resolvePK_ok (t2 : ATable) (cs : List Column) (ns : List String)
    (h : resolvePK t2 cs = .ok ns) : ns = cs.map Column.Name := by
  induction cs generalizing ns with
  | nil =>
      simp only [resolvePK] at h
      injection h with h
      subst h
      rfl
  | cons c cs ih =>
      simp only [resolvePK] at h
      split at h
      · exact (Except.noConfusion h)
      next c2 heq =>
        split at h
        · exact (Except.noConfusion h)
        next ns0 heq2 =>
          injection h with h
          subst h
          simp [ih ns0 heq2, lookupColumn_name t2 c.Name c2 heq]

/-- the per-index column loop keeps the index's name and uniqueness. -/
theorem atIndexAux_ok (idx1 : Index) (t2 : ATable) (cs : List Column)
    (idx2 idx2' : AIndex) (h : atIndexAux idx1 t2 idx2 cs = .ok idx2') :
    idx2'.name = idx2.name ∧ idx2'.unique = idx2.unique := by
  induction cs generalizing idx2 with
  | nil =>
      simp only [atIndexAux] at h
      injection h with h
      subst h
      exact ⟨rfl, rfl⟩
  | cons c cs ih =>
      simp only [atIndexAux] at h
      split at h
      · exact (Except.noConfusion h)
      next c2 heq =>
        obtain ⟨g1, g2⟩ := ih _ h
        exact ⟨g1, g2⟩

/-- the explicit-index loop: appended index names are the input index names
in order; everything else on the table is untouched. -/
theorem aIndexesAux_ok (idxs : List Index) (t2 t2' : ATable)
    (h : aIndexesAux t2 idxs = .ok t2') :
    t2'.name = t2.name ∧ t2'.columns = t2.columns ∧
    t2'.primaryKey = t2.primaryKey ∧ t2'.fks = t2.fks ∧
    t2'.indexes.map AIndex.name = t2.indexes.map AIndex.name ++ idxs.map Index.Name := by
  induction idxs generalizing t2 with
  | nil =>
      simp only [aIndexesAux] at h
      injection h with h
      subst h
      simp
  | cons idx1 rest ih =>
      simp only [aIndexesAux] at h
      split at h
      · exact (Except.noConfusion h)
      next idx2 heq =>
        obtain ⟨g1, g2⟩ :=
          atIndexAux_ok idx1 t2 idx1.Columns { name := idx1.Name, unique := idx1.Unique } idx2 heq
        obtain ⟨f1, f2, f3, f4, f5⟩ := ih _ h
        refine ⟨f1, f2, f3, f4, ?_⟩
        rw [f5]
        simp [g1]

/-- `aIndexes`: the primary key becomes the input primary-key names, the
explicit index names are appended in order. -/
theorem aIndexes_ok (t1 : Table) (t2 t2' : ATable) (h : aIndexes t1 t2 = .ok t2') :
    t2'.name = t2.name ∧ t2'.columns = t2.columns ∧ t2'.fks = t2.fks ∧
    t2'.primaryKey = t1.PrimaryKey.map Column.Name ∧
    t2'.indexes.map AIndex.name = t2.indexes.map AIndex.name ++ t1.Indexes.map Index.Name := by
  unfold aIndexes at h
  split at h
  · exact (Except.noConfusion h)
  next pk heq =>
    obtain ⟨f1, f2, f3, f4, f5⟩ := aIndexesAux_ok t1.Indexes _ t2' h
    exact ⟨f1, f2, f4, by rw [f3]; exact resolvePK_ok t2 t1.PrimaryKey pk heq, f5⟩

/-- `atTable` only touches charset, collation, attrs and checks. -/
theorem atTable_skeleton (t1 : Table) (t2 : ATable) :
    (atTable t1 t2).name = t2.name ∧ (atTable t1 t2).columns = t2.columns ∧
    (atTable t1 t2).primaryKey = t2.primaryKey ∧ (atTable t1 t2).indexes = t2.indexes ∧
    (atTable t1 t2).fks = t2.fks := by
  unfold atTable
  split <;> (try split_ifs) <;> exact ⟨rfl, rfl, rfl, rfl, rfl⟩

/-- first-pass table construction: the translated table keeps the input name,
its column names are the input column names in order, the primary key is the
input primary-key names, the index names are the implicit-unique names (in
column order) followed by the explicit index names (in input order), and no
foreign keys are attached yet. -/
theorem buildTable_ok (m : Migrate) (d : MySQLD) (t1 : Table) (t2 : ATable)
    (h : buildTable m d t1 = .ok t2) :
    t2.name = t1.Name ∧
    t2.columns.map AColumn.name = t1.Columns.map Column.Name ∧
    t2.primaryKey = t1.PrimaryKey.map Column.Name ∧
    t2.indexes.map AIndex.name =
      implicitUniqueNames t1 t1.Columns ++ t1.Indexes.map Index.Name ∧
    t2.fks = [] := by
  obtain ⟨s1, s2, s3, s4, s5⟩ := atTable_skeleton t1 (newATable t1.Name)
  unfold buildTable at h
  have ha : ∃ t2a : ATable, t2a.name = t1.Name ∧ t2a.columns = [] ∧
      t2a.primaryKey = [] ∧ t2a.indexes = [] ∧ t2a.fks = [] ∧
      (match aColumns d t1 t2a with
       | .error e => (Except.error e : Except AErr ATable)
       | .ok t2b => aIndexes t1 t2b) = .ok t2 := by
    cases hu : m.universalID <;> simp only [hu, reduceIte] at h
    · exact ⟨_, by simpa [newATable] using s1, by simpa [newATable] using s2,
             by simpa [newATable] using s3, by simpa [newATable] using s4,
             by simpa [newATable] using s5, h⟩
    · cases hpk : m.pkRange t1 with
      | error e => rw [hpk] at h; simp [Except.map] at h
      | ok r =>
          rw [hpk] at h
          simp only [Except.map] at h
          exact ⟨_, by simpa [atIncrementT, newATable] using s1,
                 by simpa [atIncrementT, newATable] using s2,
                 by simpa [atIncrementT, newATable] using s3,
                 by simpa [atIncrementT, newATable] using s4,
                 by simpa [atIncrementT, newATable] using s5, h⟩
  obtain ⟨t2a, a1, a2, a3, a4, a5, hm⟩ := ha
  split at hm
  · exact (Except.noConfusion hm)
  next t2b heqb =>
    obtain ⟨b1, b2, b3, b4, b5⟩ := aColumnsAux_ok d t1 t1.Columns t2a t2b heqb
    obtain ⟨c1e, c2e, c3e, c4e, c5e⟩ := aIndexes_ok t1 t2b t2 hm
    refine ⟨by rw [c1e, b1, a1], ?_, c4e, ?_, by rw [c3e, b3, a5]⟩
    · rw [c2e, b4, a2]
      simp
    · rw [c5e, b5, a4]
      simp

/-! ### Toolkit: the foreign-key pass -/

/-- when every column resolves, the column loop of the foreign-key pass
succeeds. -/
theorem resolveCols_ok_of_all (mk : String → AErr) (t2 : ATable) (cs : List Column)
    (h : ∀ c ∈ cs, (lookupColumn t2 c.Name).isSome) :
    ∃ ns, resolveCols mk t2 cs = .ok ns := by
  induction cs with
  | nil => exact ⟨[], rfl⟩
  | cons c cs ih =>
      obtain ⟨c2, hc2⟩ := Option.isSome_iff_exists.mp (h c (by simp))
      obtain ⟨ns, hns⟩ := ih (fun x hx => h x (by simp [hx]))
      exact ⟨c2.name :: ns, by simp [resolveCols, hc2, hns]⟩

/-- when some column does not resolve, the column loop fails naming the first
unresolvable column. -/
theorem resolveCols_first_err (mk : String → AErr) (t2 : ATable) (cs : List Column)
    (h : ∃ c ∈ cs, lookupColumn t2 c.Name = none) :
    ∃ c ∈ cs, lookupColumn t2 c.Name = none ∧
      resolveCols mk t2 cs = .error (mk c.Name) := by
  induction cs with
  | nil => simp at h
  | cons c cs ih =>
      cases hc : lookupColumn t2 c.Name with
      | none => exact ⟨c, by simp, hc, by simp [resolveCols, hc]⟩
      | some c2 =>
          have h' : ∃ x ∈ cs, lookupColumn t2 x.Name = none := by
            rcases h with ⟨x, hx, hnone⟩
            rcases List.mem_cons.mp hx with rfl | hx'
            · rw [hc] at hnone; exact (Option.noConfusion hnone)
            · exact ⟨x, hx', hnone⟩
          obtain ⟨x, hx, hnone, heq⟩ := ih h'
          exact ⟨x, by simp [hx], hnone, by simp [resolveCols, hc, heq]⟩

/-- a foreign key whose local columns resolve but whose referenced table is
absent fails with the ref-table error naming that table. -/
theorem resolveFK_refTable_err (t2 : ATable) (ts2 : List ATable) (fk : ForeignKey)
    (hcols : ∀ c ∈ fk.Columns, (lookupColumn t2 c.Name).isSome)
    (ht : lookupTable ts2 fk.RefTableName = none) :
    resolveFK t2 ts2 fk = .error (.fkRefTable fk.Symbol fk.RefTableName) := by
  obtain ⟨ns, hns⟩ :=
    resolveCols_ok_of_all (fun c => AErr.fkColumn fk.Symbol c) t2 fk.Columns hcols
  simp [resolveFK, hns, ht]

/-- a foreign key with an unresolvable local column fails with the fk-column
error naming that column. -/
theorem resolveFK_col_err (t2 : ATable) (ts2 : List ATable) (fk : ForeignKey)
    (h : ∃ c ∈ fk.Columns, lookupColumn t2 c.Name = none) :
    ∃ c ∈ fk.Columns, lookupColumn t2 c.Name = none ∧
      resolveFK t2 ts2 fk = .error (.fkColumn fk.Symbol c.Name) := by
  obtain ⟨c, hm, hn, he⟩ :=
    resolveCols_first_err (fun c => AErr.fkColumn fk.Symbol c) t2 fk.Columns h
  exact ⟨c, hm, hn, by simp [resolveFK, he]⟩

/-- a foreign key whose referenced table resolves but with an unresolvable
referenced column fails with the ref-column error naming that column. -/
theorem resolveFK_refCol_err (t2 : ATable) (ts2 : List ATable) (fk : ForeignKey)
    (refT : ATable)
    (hcols : ∀ c ∈ fk.Columns, (lookupColumn t2 c.Name).isSome)
    (ht : lookupTable ts2 fk.RefTableName = some refT)
    (h : ∃ c ∈ fk.RefColumns, lookupColumn refT c.Name = none) :
    ∃ c ∈ fk.RefColumns, lookupColumn refT c.Name = none ∧
      resolveFK t2 ts2 fk = .error (.fkRefColumn fk.Symbol c.Name) := by
  obtain ⟨ns, hns⟩ :=
    resolveCols_ok_of_all (fun c => AErr.fkColumn fk.Symbol c) t2 fk.Columns hcols
  obtain ⟨c, hm, hn, he⟩ :=
    resolveCols_first_err (fun c => AErr.fkRefColumn fk.Symbol c) refT fk.RefColumns h
  exact ⟨c, hm, hn, by simp [resolveFK, hns, ht, he]⟩

/-- a successfully resolved foreign key keeps its symbol, and its referenced
table was found in the translated set. -/
theorem resolveFK_ok_props (t2 : ATable) (ts2 : List ATable) (fk : ForeignKey) (afk : AFK)
    (h : resolveFK t2 ts2 fk = .ok afk) :
    afk.symbol = fk.Symbol ∧ (lookupTable ts2 fk.RefTableName).isSome := by
  unfold resolveFK at h
  split at h
  · exact (Except.noConfusion h)
  next ns hns =>
    split at h
    · exact (Except.noConfusion h)
    next refT ht =>
      split at h
      · exact (Except.noConfusion h)
      next rns hrns =>
        injection h with h
        subst h
        exact ⟨rfl, by simp [ht]⟩

/-- the per-table foreign-key loop appends exactly the input foreign keys'
symbols in order, touches nothing else, and implies every referenced table
was found in the translated set. -/
theorem attachFKs_ok (ts2 : List ATable) (fks : List ForeignKey) (t2 t2' : ATable)
    (h : attachFKs ts2 t2 fks = .ok t2') :
    t2'.name = t2.name ∧ t2'.columns = t2.columns ∧
    t2'.primaryKey = t2.primaryKey ∧ t2'.indexes = t2.indexes ∧
    t2'.fks.map AFK.symbol = t2.fks.map AFK.symbol ++ fks.map ForeignKey.Symbol ∧
    ∀ fk ∈ fks, (lookupTable ts2 fk.RefTableName).isSome := by
  induction fks generalizing t2 with
  | nil =>
      simp only [attachFKs] at h
      injection h with h
      subst h
      simp
  | cons fk fks ih =>
      simp only [attachFKs] at h
      split at h
      · exact (Except.noConfusion h)
      next fk2 heq =>
        obtain ⟨r1, r2⟩ := resolveFK_ok_props t2 ts2 fk fk2 heq
        obtain ⟨f1, f2, f3, f4, f5, f6⟩ := ih _ h
        refine ⟨f1, f2, f3, f4, ?_, ?_⟩
        · rw [f5]; simp [r1]
        · intro x hx
          rcases List.mem_cons.mp hx with rfl | hx'
          · exact r2
          · exact f6 x hx'

/-- the first pass relates input tables and translated tables pairwise. -/
theorem buildAll_ok (m : Migrate) (d : MySQLD) (ts : List Table) (ts2 : List ATable)
    (h : buildAll m d ts = .ok ts2) :
    List.Forall₂ (fun t1 t2 => buildTable m d t1 = .ok t2) ts ts2 := by
  induction ts generalizing ts2 with
  | nil =>
      simp only [buildAll] at h
      injection h with h
      subst h
      exact .nil
  | cons t ts ih =>
      simp only [buildAll] at h
      split at h
      · exact (Except.noConfusion h)
      next t2 heq =>
        split at h
        · exact (Except.noConfusion h)
        next rest hrest =>
          injection h with h
          subst h
          exact .cons heq (ih rest hrest)

/-- the translated tables carry exactly the input table names, in order. -/
theorem buildAll_names (m : Migrate) (d : MySQLD) (ts : List Table) (ts2 : List ATable)
    (hf : List.Forall₂ (fun t1 t2 => buildTable m d t1 = .ok t2) ts ts2) :
    ts2.map ATable.name = ts.map Table.Name := by
  induction hf with
  | nil => rfl
  | cons h _ ih => simp [(buildTable_ok _ _ _ _ h).1, ih]

/-- a successful by-name table lookup means the name occurs among the
translated table names. -/
theorem lookupTable_isSome_mem (ts2 : List ATable) (n : String)
    (h : (lookupTable ts2 n).isSome) : n ∈ ts2.map ATable.name := by
  unfold lookupTable at h
  obtain ⟨t, ht⟩ := Option.isSome_iff_exists.mp h
  have hmem := List.mem_of_find?_eq_some ht
  have hp := List.find?_some ht
  simp only [beq_iff_eq] at hp
  exact List.mem_map.mpr ⟨t, hmem, hp⟩

/-- master characterization of a successful `aTables` run: each output table
keeps the input name, column names in order, primary-key names, index names
(implicit unique first, then explicit), foreign-key symbols in order, and
every referenced table name occurs in the input set. -/
theorem aTables_ok_char (m : Migrate) (d : MySQLD) (ts : List Table) (out : List ATable)
    (h : aTables m d ts = .ok out) :
    List.Forall₂ (fun t1 t2' =>
      t2'.name = t1.Name ∧
      t2'.columns.map AColumn.name = t1.Columns.map Column.Name ∧
      t2'.primaryKey = t1.PrimaryKey.map Column.Name ∧
      t2'.indexes.map AIndex.name =
        implicitUniqueNames t1 t1.Columns ++ t1.Indexes.map Index.Name ∧
      t2'.fks.map AFK.symbol = t1.ForeignKeys.map ForeignKey.Symbol ∧
      ∀ fk ∈ t1.ForeignKeys, fk.RefTableName ∈ ts.map Table.Name) ts out := by
  unfold aTables at h
  split at h
  · exact (Except.noConfusion h)
  next ts2 hba =>
    have hf := buildAll_ok m d ts ts2 hba
    have hnames := buildAll_names m d ts ts2 hf
    -- walk the second pass in lockstep with the first-pass relation,
    -- keeping the full translated set fixed for the by-name lookups
    have haux : ∀ (tsa : List Table) (ts2a out : List ATable),
        List.Forall₂ (fun t1 t2 => buildTable m d t1 = .ok t2) tsa ts2a →
        attachAll ts2 tsa ts2a = .ok out →
        List.Forall₂ (fun t1 t2' =>
          t2'.name = t1.Name ∧
          t2'.columns.map AColumn.name = t1.Columns.map Column.Name ∧
          t2'.primaryKey = t1.PrimaryKey.map Column.Name ∧
          t2'.indexes.map AIndex.name =
            implicitUniqueNames t1 t1.Columns ++ t1.Indexes.map Index.Name ∧
          t2'.fks.map AFK.symbol = t1.ForeignKeys.map ForeignKey.Symbol ∧
          ∀ fk ∈ t1.ForeignKeys, (lookupTable ts2 fk.RefTableName).isSome) tsa out := by
      intro tsa
      induction tsa with
      | nil =>
          intro ts2a out hfa ha
          cases hfa
          simp only [attachAll] at ha
          injection ha with ha
          subst ha
          exact .nil
      | cons t tsr ih =>
          intro ts2a out hfa ha
          cases hfa with
          | cons hbt hfr =>
              simp only [attachAll] at ha
              split at ha
              · exact (Except.noConfusion ha)
              next t2f heq =>
                split at ha
                · exact (Except.noConfusion ha)
                next outr hrest =>
                  injection ha with ha
                  subst ha
                  obtain ⟨b1, b2, b3, b4, b5⟩ := buildTable_ok m d t _ hbt
                  obtain ⟨a1, a2, a3, a4, a5, a6⟩ :=
                    attachFKs_ok ts2 t.ForeignKeys _ t2f heq
                  refine .cons ⟨?_, ?_, ?_, ?_, ?_, a6⟩ (ih _ _ hfr hrest)
                  · rw [a1, b1]
                  · rw [a2, b2]
                  · rw [a3, b3]
                  · rw [a4, b4]
                  · rw [a5, b5]; simp
    refine (haux ts ts2 out hf h).imp ?_
    intro t1 t2' hp
    obtain ⟨p1, p2, p3, p4, p5, p6⟩ := hp
    refine ⟨p1, p2, p3, p4, p5, ?_⟩
    intro fk hfk
    have hm := lookupTable_isSome_mem ts2 fk.RefTableName (p6 fk hfk)
    rwa [hnames] at hm

/-- a pairwise relation gives a related partner for every left member. -/
theorem forallTwo_mem_left {α β : Type} {R : α → β → Prop} {l1 : List α} {l2 : List β}
    (h : List.Forall₂ R l1 l2) {a : α} (ha : a ∈ l1) : ∃ b ∈ l2, R a b := by
  induction h with
  | nil => cases ha
  | cons hr hrest ih =>
      rcases List.mem_cons.mp ha with rfl | ha'
      · exact ⟨_, by simp, hr⟩
      · obtain ⟨b, hb, hrb⟩ := ih ha'
        exact ⟨b, by simp [hb], hrb⟩

/-! ### C1 -/

/-- C1: foreign-key resolution fails with the ref-table error naming the
referenced table when no table of that name exists in the translated set, and
with the fk-column / fk-ref-column error naming the offending column when a
local or referenced column is not found in its table; a successful run keeps
every input foreign key (in order), every referenced table name then occurs
in the input set, and a foreign key with an absent referenced table makes the
whole translation fail — it is never silently dropped. -/
theorem C1_fk_resolution_errors :
    (∀ (t2 : ATable) (ts2 : List ATable) (fk : ForeignKey),
       (∀ c ∈ fk.Columns, (lookupColumn t2 c.Name).isSome) →
       lookupTable ts2 fk.RefTableName = none →
       resolveFK t2 ts2 fk = .error (.fkRefTable fk.Symbol fk.RefTableName))
    ∧ (∀ (t2 : ATable) (ts2 : List ATable) (fk : ForeignKey),
       (∃ c ∈ fk.Columns, lookupColumn t2 c.Name = none) →
       ∃ c ∈ fk.Columns, lookupColumn t2 c.Name = none ∧
         resolveFK t2 ts2 fk = .error (.fkColumn fk.Symbol c.Name))
    ∧ (∀ (t2 : ATable) (ts2 : List ATable) (fk : ForeignKey) (refT : ATable),
       (∀ c ∈ fk.Columns, (lookupColumn t2 c.Name).isSome) →
       lookupTable ts2 fk.RefTableName = some refT →
       (∃ c ∈ fk.RefColumns, lookupColumn refT c.Name = none) →
       ∃ c ∈ fk.RefColumns, lookupColumn refT c.Name = none ∧
         resolveFK t2 ts2 fk = .error (.fkRefColumn fk.Symbol c.Name))
    ∧ (∀ (m : Migrate) (d : MySQLD) (ts : List Table) (out : List ATable),
       aTables m d ts = .ok out →
       List.Forall₂ (fun t1 t2' =>
         t2'.fks.map AFK.symbol = t1.ForeignKeys.map ForeignKey.Symbol) ts out)
    ∧ (∀ (m : Migrate) (d : MySQLD) (ts : List Table) (t1 : Table) (fk : ForeignKey),
       t1 ∈ ts → fk ∈ t1.ForeignKeys → fk.RefTableName ∉ ts.map Table.Name →
       (aTables m d ts).toOption = none) := by
  refine ⟨resolveFK_refTable_err, resolveFK_col_err, resolveFK_refCol_err, ?_, ?_⟩
  · intro m d ts out h
    exact (aTables_ok_char m d ts out h).imp (fun t1 t2' hp => hp.2.2.2.2.1)
  · intro m d ts t1 fk ht1 hfk hnot
    cases hok : aTables m d ts with
    | error e => rfl
    | ok out =>
        obtain ⟨t2', _, hp⟩ := forallTwo_mem_left (aTables_ok_char m d ts out hok) ht1
        exact absurd (hp.2.2.2.2.2 fk hfk) hnot

/-! ### C4 -/

/-- C4: a successful translation preserves, per table in order: the table
name, the column names in the input column order, the primary-key column
names, and an index-name list consisting of the per-column implicit unique
indexes (in column order, attached while the column is processed) followed by
the explicit indexes (in input order); foreign keys are attached in a second
pass resolved by name against the full translated set (their symbols are
covered by the C1 theorem). -/
theorem C4_translation_order (m : Migrate) (d : MySQLD) (ts : List Table)
    (out : List ATable) (h : aTables m d ts = .ok out) :
    out.length = ts.length ∧
    List.Forall₂ (fun t1 t2' =>
      t2'.name = t1.Name ∧
      t2'.columns.map AColumn.name = t1.Columns.map Column.Name ∧
      t2'.primaryKey = t1.PrimaryKey.map Column.Name ∧
      t2'.indexes.map AIndex.name =
        implicitUniqueNames t1 t1.Columns ++ t1.Indexes.map Index.Name) ts out := by
  have hc := aTables_ok_char m d ts out h
  exact ⟨hc.length_eq.symm,
         hc.imp (fun t1 t2' hp => ⟨hp.1, hp.2.1, hp.2.2.1, hp.2.2.2.1⟩)⟩

/-! ### Concrete inputs for the C1 and C4 witnesses -/

/-- an integer column named "a". -/
def colA : Column := { Name := "a", ftype := .int }

/-- an integer column named "pid". -/
def pidCol : Column := { Name := "pid", ftype := .int }

/-- parent table "p" holding column "a". -/
def tParent : Table := { Name := "p", Columns := [colA], PrimaryKey := [colA] }

/-- foreign key from "pid" to "p"("a"). -/
def fkPC : ForeignKey :=
  { Symbol := "f1", Columns := [pidCol], RefTableName := "p", RefColumns := [colA] }

/-- child table "ch"; listed before its parent, so the reference is forward
into the translated set. -/
def tChild : Table := { Name := "ch", Columns := [pidCol], ForeignKeys := [fkPC] }

/-- default migration context (universal-ID mode off). -/
def mPlain : Migrate := {}

/-- child first: the foreign key resolves only because the second pass sees
the full translated set. -/
def tsPC : List Table := [tChild, tParent]

/-- the translated set of `tsPC`. -/
def outPC : List ATable := (aTables mPlain dMy tsPC).toOption.getD []

/-- a translated table "w" with a single column "a". -/
def t2w : ATable := { name := "w", columns := [{ name := "a" }] }

/-- a translated set holding only "w". -/
def tsW : List ATable := [t2w]

/-- fk referencing the absent table "gone". -/
def fkA : ForeignKey := { Symbol := "fka", Columns := [colA], RefTableName := "gone" }

/-- fk whose local column "x" is absent from "w". -/
def fkB : ForeignKey :=
  { Symbol := "fkb", Columns := [{ Name := "x", ftype := .int }], RefTableName := "w" }

/-- fk whose referenced column "y" is absent from "w". -/
def fkC : ForeignKey :=
  { Symbol := "fkc", Columns := [colA], RefTableName := "w",
    RefColumns := [{ Name := "y", ftype := .int }] }

/-- fk referencing the absent table "nowhere". -/
def fkD : ForeignKey := { Symbol := "fkd", Columns := [colA], RefTableName := "nowhere" }

/-- a table whose only foreign key references an absent table. -/
def tBad : Table := { Name := "b", Columns := [colA], ForeignKeys := [fkD] }

/-- C1 witness: the three error shapes at concrete unresolvable foreign keys,
foreign-key preservation on a concrete successful two-table run with a
forward reference, and whole-translation failure for a dangling ref-table. -/
theorem C1_fk_resolution_errors_witness :
    (resolveFK t2w tsW fkA = .error (.fkRefTable "fka" "gone"))
    ∧ (∃ c ∈ fkB.Columns, lookupColumn t2w c.Name = none ∧
        resolveFK t2w tsW fkB = .error (.fkColumn fkB.Symbol c.Name))
    ∧ (∃ c ∈ fkC.RefColumns, lookupColumn t2w c.Name = none ∧
        resolveFK t2w tsW fkC = .error (.fkRefColumn fkC.Symbol c.Name))
    ∧ (List.Forall₂ (fun t1 t2' =>
         t2'.fks.map AFK.symbol = t1.ForeignKeys.map ForeignKey.Symbol) tsPC outPC)
    ∧ ((aTables mPlain dMy [tBad]).toOption = none) :=
  ⟨C1_fk_resolution_errors.1 t2w tsW fkA (by decide) (by decide),
   C1_fk_resolution_errors.2.1 t2w tsW fkB (by decide),
   C1_fk_resolution_errors.2.2.1 t2w tsW fkC t2w (by decide) (by decide) (by decide),
   C1_fk_resolution_errors.2.2.2.1 mPlain dMy tsPC outPC rfl,
   C1_fk_resolution_errors.2.2.2.2 mPlain dMy [tBad] tBad fkD (by simp) (by simp [tBad])
     (by decide)⟩

/-- C4 witness: the order-preservation characterization at the concrete
two-table run. -/
theorem C4_translation_order_witness :
    outPC.length = tsPC.length ∧
    List.Forall₂ (fun t1 t2' =>
      t2'.name = t1.Name ∧
      t2'.columns.map AColumn.name = t1.Columns.map Column.Name ∧
      t2'.primaryKey = t1.PrimaryKey.map Column.Name ∧
      t2'.indexes.map AIndex.name =
        implicitUniqueNames t1 t1.Columns ++ t1.Indexes.map Index.Name) tsPC outPC :=
  C4_translation_order mPlain dMy tsPC outPC rfl
